import Mathlib

/-!
Verification development for the argument-analysis orchestration harness
(EPITA symbolic-AI course repository).  The repository ships an executor
notebook that drives a multi-agent rhetorical analysis: it loads an
encrypted source configuration, prepares a text, loads agent and
orchestration definitions, and runs a turn-taking conversation between an
informal-fallacy agent and a propositional-logic agent over a shared
mutable analysis state.  The orchestration core itself (shared state,
turn-selection strategy, conversation loop, configuration encryption)
lives in child notebooks that are referenced but not shipped; those parts
are modelled here from the design specification, while the executor
pipeline is embedded from the shipped executor notebook.
-/

namespace ArgAnalysis

/-- The two cooperating agent roles of the Agent Set. -/
inductive Agent
  | informal
  | pl
deriving DecidableEq, Repr

/-- Modelled from the spec: a detected fallacy, tagged with type, location
span and confidence (section 3, Analysis State). -/
structure Fallacy where
  ftype : String
  spanStart : Nat
  spanStop : Nat
  confidence : Nat
deriving DecidableEq, Repr

/-- Modelled from the spec: the Shared Analysis State (section 3): raw text,
ordered arguments, detected fallacies, logic-agent results, completion flag
and turn counter.  The concrete RhetoricalAnalysisState class is defined in
a child notebook that is not shipped with the repository. -/
structure AnalysisState where
  rawText : String
  arguments : List String
  fallacies : List Fallacy
  logicResults : List String
  completionFlag : Bool
  turnCounter : Nat
deriving DecidableEq, Repr

/-- Modelled from the spec: the registered tool-call mutations of the
Shared Analysis State (section 4.1): add-argument, add-fallacy,
set-logic-result, mark-complete. -/
inductive Mutation
  | addArgument (a : String)
  | addFallacy (f : Fallacy)
  | setLogicResult (r : String)
  | markComplete
deriving DecidableEq, Repr

/-- Error raised by an invalid state mutation. -/
inductive StateError
  | invalidStateTransition
deriving DecidableEq, Repr

/-- Modelled from the spec: applying one registered mutation to the state.
Mark-complete fails with an InvalidStateTransition error when no argument
has been recorded yet (section 4.1). -/
def applyMutation (st : AnalysisState) : Mutation → Except StateError AnalysisState
  | .addArgument a => .ok { st with arguments := st.arguments ++ [a] }
  | .addFallacy f => .ok { st with fallacies := st.fallacies ++ [f] }
  | .setLogicResult r => .ok { st with logicResults := st.logicResults ++ [r] }
  | .markComplete =>
      if st.arguments.isEmpty then .error .invalidStateTransition
      else .ok { st with completionFlag := true }

/-- Modelled from the spec: applying the tool calls of one agent turn in
order; on the first failing mutation the state reached so far is kept and
the error is reported. -/
def applyMutations : AnalysisState → List Mutation → AnalysisState × Option StateError
  | st, [] => (st, none)
  | st, m :: ms =>
    match applyMutation st m with
    | .ok st2 => applyMutations st2 ms
    | .error e => (st, some e)

/-- Total number of recorded findings, used for stall detection. -/
def countFindings (st : AnalysisState) : Nat :=
  st.arguments.length + st.fallacies.length + st.logicResults.length

/-- Termination signals emitted by the Turn-Selection Strategy. -/
inductive TermSignal
  | complete
  | budgetExhausted
  | stalled
deriving DecidableEq, Repr

/-- A strategy decision: select the next agent, or terminate. -/
inductive StrategyDecision
  | selectAgent (a : Agent)
  | terminate (sig : TermSignal)
deriving DecidableEq, Repr

/-- Default alternation between the two agents; the informal agent acts
first. -/
def nextAgent : Option Agent → Agent
  | none => .informal
  | some .informal => .pl
  | some .pl => .informal

/-- Modelled from the spec: the Turn-Selection Strategy (section 4.2).
If the completion flag is set, terminate complete; if the turn counter has
reached the configured maximum, terminate with the budget-exhausted
signal; if no new findings were added for two consecutive turns, terminate
to avoid an infinite loop; otherwise alternate agents. -/
def strategy (maxTurns : Nat) (st : AnalysisState) (lastAgent : Option Agent)
    (stallCount : Nat) : StrategyDecision :=
  if st.completionFlag then .terminate .complete
  else if maxTurns ≤ st.turnCounter then .terminate .budgetExhausted
  else if 2 ≤ stallCount then .terminate .stalled
  else .selectAgent (nextAgent lastAgent)

/-- Outcome of one agent turn: either a list of tool calls to apply, or an
unhandled exception carrying a detail message. -/
inductive TurnOutcome
  | ok (muts : List Mutation)
  | raise (detail : String)

/-- The environment of a run: the (externally driven, LLM-backed) agent
behaviour and the cancellation token, checked at the top of each loop
iteration against the current turn counter. -/
structure Env where
  agentTurn : Nat → Agent → AnalysisState → TurnOutcome
  cancelled : Nat → Bool

/-- A Conversation Turn Record of the transcript (section 3): turn index,
acting agent, tool calls issued. -/
structure TurnRecord where
  turnIndex : Nat
  agent : Agent
  toolCalls : List Mutation
deriving DecidableEq, Repr

/-- Sub-reason of a Terminated-Error outcome; an agent exception is logged
with its turn index, agent identity and exception detail. -/
inductive ErrorReason
  | cancelled
  | agentException (turnIndex : Nat) (agent : Agent) (detail : String)
  | stateTransition (turnIndex : Nat) (agent : Agent)
deriving DecidableEq, Repr

/-- Terminal states of an analysis run. -/
inductive RunResult
  | complete
  | budgetExhausted
  | stalled
  | error (r : ErrorReason)
deriving DecidableEq, Repr

/-- Everything a finished run yields: the terminal state reached, the final
Shared Analysis State, and the transcript of turn records. -/
structure RunOutput where
  result : RunResult
  finalState : AnalysisState
  transcript : List TurnRecord
deriving DecidableEq, Repr

/-- Modelled from the spec: the Conversation Orchestrator loop
(sections 4.4 and 5).  At the top of each iteration the cancellation token
is checked; then the strategy either terminates the run or selects an
agent; the selected agent acts, either raising an exception (immediate
Terminated-Error, no retry) or issuing tool calls, which are applied to
the state; a failing mutation also terminates in error.  After a
successful turn the counter increments, the turn is recorded, and stall
detection counts consecutive turns that added no findings.  The fuel
argument bounds recursion; the driver supplies one more than the turn
budget, which is never exhausted before the strategy terminates. -/
def runFrom (env : Env) (maxTurns : Nat) :
    Nat → AnalysisState → List TurnRecord → Option Agent → Nat → RunOutput
  | 0, st, transcript, _, _ => ⟨.budgetExhausted, st, transcript⟩
  | fuel + 1, st, transcript, lastAgent, stallCount =>
    if env.cancelled st.turnCounter then
      ⟨.error .cancelled, st, transcript⟩
    else
      match strategy maxTurns st lastAgent stallCount with
      | .terminate .complete => ⟨.complete, st, transcript⟩
      | .terminate .budgetExhausted => ⟨.budgetExhausted, st, transcript⟩
      | .terminate .stalled => ⟨.stalled, st, transcript⟩
      | .selectAgent a =>
        match env.agentTurn st.turnCounter a st with
        | .raise detail =>
          ⟨.error (.agentException (st.turnCounter + 1) a detail), st, transcript⟩
        | .ok muts =>
          match applyMutations st muts with
          | (stBad, some _) =>
            ⟨.error (.stateTransition (st.turnCounter + 1) a), stBad, transcript⟩
          | (stOk, none) =>
            runFrom env maxTurns fuel
              { stOk with turnCounter := st.turnCounter + 1 }
              (transcript ++ [⟨st.turnCounter + 1, a, muts⟩])
              (some a)
              (if countFindings stOk = countFindings st then stallCount + 1 else 0)

/-- The Shared Analysis State at the start of a run: the raw text is set,
no findings, completion flag clear, counter zero. -/
def initialState (text : String) : AnalysisState :=
  ⟨text, [], [], [], false, 0⟩

/-- Modelled from the spec: one full analysis run over a text with a
configured turn budget. -/
def runAnalysis (env : Env) (maxTurns : Nat) (text : String) : RunOutput :=
  runFrom env maxTurns (maxTurns + 1) (initialState text) [] none 0

/-- The source types of a Source Descriptor (section 3). -/
inductive SourceType
  | predefined
  | url
  | file
  | directText
  | extract
deriving DecidableEq, Repr

/-- A Source Descriptor (section 3): label, type, location, optional cached
full text.  The unique identifier is the key of the store mapping. -/
structure SourceDescriptor where
  label : String
  stype : SourceType
  location : String
  cachedText : Option String
deriving DecidableEq, Repr

/-- The Source Configuration Store: a mapping from identifiers to Source
Descriptors. -/
abbrev SourceStore : Type := List (String × SourceDescriptor)

/-- Error raised when the encrypted configuration cannot be loaded. -/
inductive ConfigError
  | configurationLoadError
deriving DecidableEq, Repr

/-- Modelled from the spec: the key-derivation function applied to the
user passphrase (section 6).  The configuration-UI notebook that derives
the key is not shipped; the KDF is modelled as an injective function of
the passphrase, ignoring hash collisions. -/
def deriveKey (passphrase : String) : String :=
  "kdf:" ++ passphrase

/-- Modelled from the spec: the encrypted configuration blob.  The
authenticated symmetric cipher is modelled abstractly: the blob carries
the payload together with the tag of the key it was encrypted under, and
decryption verifies the tag before releasing the payload. -/
structure EncryptedBlob where
  keyTag : String
  payload : SourceStore
deriving DecidableEq

/-- Modelled from the spec: encrypting the Source Configuration Store under
a passphrase-derived key. -/
def encryptConfig (store : SourceStore) (passphrase : String) : EncryptedBlob :=
  ⟨deriveKey passphrase, store⟩

/-- Modelled from the spec: decrypting the configuration blob.  A wrong
passphrase fails authentication and yields a ConfigurationLoadError; it
never releases a corrupt mapping. -/
def decryptConfig (blob : EncryptedBlob) (passphrase : String) :
    Except ConfigError SourceStore :=
  if blob.keyTag = deriveKey passphrase then .ok blob.payload
  else .error .configurationLoadError

/-- Modelled from the spec: the in-memory default set of Source
Descriptors used when the encrypted configuration file is absent.  The
executor notebook output shows 4 initial sources being defined; their
contents are not shipped, so representative entries are used. -/
def defaultSources : SourceStore :=
  [ ("source1", ⟨"Discours 1", .predefined, "corpus/d1", none⟩),
    ("source2", ⟨"Discours 2", .predefined, "corpus/d2", none⟩),
    ("source3", ⟨"Article", .url, "https://example.org/a", none⟩),
    ("source4", ⟨"Texte direct", .directText, "", none⟩) ]

/-- Modelled from the spec: loading the Source Configuration File at
startup (section 6).  Absence of the encrypted file is non-fatal: the
system falls back to the in-memory default set. -/
def loadSourceConfig (file : Option EncryptedBlob) (passphrase : String) :
    Except ConfigError SourceStore :=
  match file with
  | none => .ok defaultSources
  | some blob => decryptConfig blob passphrase

/-- Outcome of running one Python step of the executor notebook: the step
either returns a value or raises an exception. -/
inductive PyResult (α : Type)
  | ok (val : α)
  | exc
deriving DecidableEq, Repr

/-- Python truthiness of the prepared text variable: None and the empty
string are falsy. -/
def truthy : Option String → Bool
  | none => false
  | some s => !(s = "")

/-- The external behaviour the executor notebook depends on: whether the
UI notebook defined configure_analysis_task, what that call returns (or
whether it raises), whether running the agent and orchestration child
notebooks succeeds, and whether they define run_analysis_conversation. -/
structure ExecutorEnv where
  configTaskDefined : Bool
  configureResult : PyResult (Option String)
  agentLoadOk : Bool
  definesRun : Bool
deriving DecidableEq, Repr

/-- Value of texte_pour_analyse after the configuration cell of the
executor notebook: initialised to None; when configure_analysis_task is
defined it is called, an exception leaving the variable at None. -/
def textePourAnalyse (env : ExecutorEnv) : Option String :=
  if env.configTaskDefined then
    match env.configureResult with
    | .ok t => t
    | .exc => none
  else none

/-- Value of texte_pour_analyse after the definition-loading cell: the
child notebooks run only when the text is truthy, and an exception while
running them resets the text to None. -/
def texteApresChargement (env : ExecutorEnv) : Option String :=
  if truthy (textePourAnalyse env) then
    if env.agentLoadOk then textePourAnalyse env else none
  else textePourAnalyse env

/-- Whether run_analysis_conversation is defined after the
definition-loading cell: the child notebooks must have been run (text
truthy), run without exception, and define the function. -/
def runConversationDefined (env : ExecutorEnv) : Bool :=
  truthy (textePourAnalyse env) && env.agentLoadOk && env.definesRun

/-- The guard of the analysis cell of the executor notebook: the analysis
is launched only when the prepared text is truthy and
run_analysis_conversation is defined. -/
def analysisLaunched (env : ExecutorEnv) : Bool :=
  truthy (texteApresChargement env) && runConversationDefined env

/-- An idle environment: agents issue no tool calls, nothing is cancelled. -/
def envIdle : Env :=
  ⟨fun _ _ _ => .ok [], fun _ => false⟩

/-- An environment whose agent records one argument and marks completion on
its first turn. -/
def envComplete : Env :=
  ⟨fun _ _ _ => .ok [.addArgument "a1", .markComplete], fun _ => false⟩

/-- An environment whose agent raises an exception on every turn. -/
def envRaise : Env :=
  ⟨fun _ _ _ => .raise "boom", fun _ => false⟩

/-- An environment where cancellation is requested between turn 1 and
turn 2: the token is revoked once the turn counter has reached 1. -/
def envCancelAfter1 : Env :=
  ⟨fun _ _ _ => .ok [], fun n => decide (1 ≤ n)⟩

/-- A concrete executor run whose UI step returns a non-empty text and
whose child notebooks load successfully. -/
def execEnvOk : ExecutorEnv :=
  ⟨true, .ok (some "txt"), true, true⟩

/-- A concrete executor run whose UI step raises an exception. -/
def execEnvFail : ExecutorEnv :=
  ⟨true, .exc, true, true⟩

theorem applyMutation_ok_fields {st st2 : AnalysisState} {m : Mutation}
    (h : applyMutation st m = .ok st2) :
    st2.rawText = st.rawText ∧ st2.turnCounter = st.turnCounter := by
  cases m with
  | addArgument a =>
      simp only [applyMutation, Except.ok.injEq] at h
      subst h
      exact ⟨rfl, rfl⟩
  | addFallacy f =>
      simp only [applyMutation, Except.ok.injEq] at h
      subst h
      exact ⟨rfl, rfl⟩
  | setLogicResult r =>
      simp only [applyMutation, Except.ok.injEq] at h
      subst h
      exact ⟨rfl, rfl⟩
  | markComplete =>
      simp only [applyMutation] at h
      split at h
      · simp at h
      · simp only [Except.ok.injEq] at h
        subst h
        exact ⟨rfl, rfl⟩

theorem applyMutation_ok_flagInv {st st2 : AnalysisState} {m : Mutation}
    (h : applyMutation st m = .ok st2)
    (hp : st.completionFlag = true → st.arguments ≠ []) :
    st2.completionFlag = true → st2.arguments ≠ [] := by
  cases m with
  | addArgument a =>
      simp only [applyMutation, Except.ok.injEq] at h
      subst h
      intro _
      simp
  | addFallacy f =>
      simp only [applyMutation, Except.ok.injEq] at h
      subst h
      exact hp
  | setLogicResult r =>
      simp only [applyMutation, Except.ok.injEq] at h
      subst h
      exact hp
  | markComplete =>
      simp only [applyMutation] at h
      split at h
      · simp at h
      · rename_i hne
        simp only [Except.ok.injEq] at h
        subst h
        intro _
        simp only [List.isEmpty_iff] at hne
        exact hne

theorem applyMutations_fields (ms : List Mutation) (st : AnalysisState) :
    (applyMutations st ms).1.rawText = st.rawText ∧
    (applyMutations st ms).1.turnCounter = st.turnCounter := by
  induction ms generalizing st with
  | nil => exact ⟨rfl, rfl⟩
  | cons m ms ih =>
      cases hm : applyMutation st m with
      | ok st2 =>
          simp only [applyMutations, hm]
          obtain ⟨h1, h2⟩ := applyMutation_ok_fields hm
          obtain ⟨h3, h4⟩ := ih st2
          exact ⟨h3.trans h1, h4.trans h2⟩
      | error e =>
          simp [applyMutations, hm]

theorem applyMutations_flagInv (ms : List Mutation) (st : AnalysisState)
    (hp : st.completionFlag = true → st.arguments ≠ []) :
    (applyMutations st ms).1.completionFlag = true →
      (applyMutations st ms).1.arguments ≠ [] := by
  induction ms generalizing st with
  | nil => exact hp
  | cons m ms ih =>
      cases hm : applyMutation st m with
      | ok st2 =>
          simp only [applyMutations, hm]
          exact ih st2 (applyMutation_ok_flagInv hm hp)
      | error e =>
          simp only [applyMutations, hm]
          exact hp

theorem applyMutations_no_markComplete (ms : List Mutation) (st : AnalysisState)
    (hnm : Mutation.markComplete ∉ ms) :
    (applyMutations st ms).2 = none ∧
    (applyMutations st ms).1.completionFlag = st.completionFlag := by
  induction ms generalizing st with
  | nil => exact ⟨rfl, rfl⟩
  | cons m ms ih =>
      have hm1 : m ≠ Mutation.markComplete := by
        intro he
        exact hnm (he ▸ List.mem_cons_self m ms)
      have hm2 : Mutation.markComplete ∉ ms := fun hin => hnm (List.mem_cons_of_mem m hin)
      cases m with
      | addArgument a =>
          simp only [applyMutations, applyMutation]
          exact ih _ hm2
      | addFallacy f =>
          simp only [applyMutations, applyMutation]
          exact ih _ hm2
      | setLogicResult r =>
          simp only [applyMutations, applyMutation]
          exact ih _ hm2
      | markComplete => exact absurd rfl hm1

theorem strategy_selectAgent {maxTurns : Nat} {st : AnalysisState}
    {la : Option Agent} {sc : Nat} {a : Agent}
    (h : strategy maxTurns st la sc = .selectAgent a) :
    st.completionFlag = false ∧ st.turnCounter < maxTurns ∧ sc < 2 ∧
      a = nextAgent la := by
  unfold strategy at h
  split_ifs at h with h1 h2 h3
  simp only [StrategyDecision.selectAgent.injEq] at h
  have h1f : st.completionFlag = false := by
    cases hcf : st.completionFlag
    · rfl
    · exact absurd hcf h1
  exact ⟨h1f, by omega, by omega, h.symm⟩

theorem strategy_terminate_complete {maxTurns : Nat} {st : AnalysisState}
    {la : Option Agent} {sc : Nat}
    (h : strategy maxTurns st la sc = .terminate .complete) :
    st.completionFlag = true := by
  unfold strategy at h
  split_ifs at h with h1 h2 h3 <;> simp_all

theorem runFrom_rawText (env : Env) (maxTurns : Nat) :
    ∀ (fuel : Nat) (st : AnalysisState) (t : List TurnRecord)
      (la : Option Agent) (sc : Nat),
      (runFrom env maxTurns fuel st t la sc).finalState.rawText = st.rawText := by
  intro fuel
  induction fuel with
  | zero => intro st t la sc; rfl
  | succ f ih =>
      intro st t la sc
      rw [runFrom]
      cases hc : env.cancelled st.turnCounter with
      | true => simp [hc]
      | false =>
          simp only [hc, Bool.false_eq_true, if_false]
          cases hS : strategy maxTurns st la sc with
          | terminate sig => cases sig <;> simp [hS]
          | selectAgent a =>
              simp only [hS]
              cases hT : env.agentTurn st.turnCounter a st with
              | raise detail => simp [hT]
              | ok muts =>
                  simp only [hT]
                  rcases hA : applyMutations st muts with ⟨stOut, err⟩
                  have hraw := (applyMutations_fields muts st).1
                  rw [hA] at hraw
                  have hraw2 : stOut.rawText = st.rawText := hraw
                  cases err with
                  | some e =>
                      simp only [hA]
                      exact hraw2
                  | none =>
                      simp only [hA]
                      rw [ih]
                      exact hraw2

theorem runFrom_counter_le (env : Env) (maxTurns : Nat) :
    ∀ (fuel : Nat) (st : AnalysisState) (t : List TurnRecord)
      (la : Option Agent) (sc : Nat),
      st.turnCounter ≤ maxTurns →
      (runFrom env maxTurns fuel st t la sc).finalState.turnCounter ≤ maxTurns := by
  intro fuel
  induction fuel with
  | zero => intro st t la sc hle; exact hle
  | succ f ih =>
      intro st t la sc hle
      rw [runFrom]
      cases hc : env.cancelled st.turnCounter with
      | true => simpa [hc] using hle
      | false =>
          simp only [hc, Bool.false_eq_true, if_false]
          cases hS : strategy maxTurns st la sc with
          | terminate sig => cases sig <;> simpa [hS] using hle
          | selectAgent a =>
              simp only [hS]
              have hlt := (strategy_selectAgent hS).2.1
              cases hT : env.agentTurn st.turnCounter a st with
              | raise detail => simpa [hT] using hle
              | ok muts =>
                  simp only [hT]
                  rcases hA : applyMutations st muts with ⟨stOut, err⟩
                  have hcnt := (applyMutations_fields muts st).2
                  rw [hA] at hcnt
                  have hcnt2 : stOut.turnCounter = st.turnCounter := hcnt
                  cases err with
                  | some e =>
                      simp only [hA]
                      rw [hcnt2]
                      exact hle
                  | none =>
                      simp only [hA]
                      exact ih _ _ _ _ (show st.turnCounter + 1 ≤ maxTurns by omega)

theorem runFrom_complete_inv (env : Env) (maxTurns : Nat) :
    ∀ (fuel : Nat) (st : AnalysisState) (t : List TurnRecord)
      (la : Option Agent) (sc : Nat),
      (st.completionFlag = true → st.arguments ≠ []) →
      (runFrom env maxTurns fuel st t la sc).result = .complete →
      (runFrom env maxTurns fuel st t la sc).finalState.completionFlag = true ∧
        (runFrom env maxTurns fuel st t la sc).finalState.arguments ≠ [] := by
  intro fuel
  induction fuel with
  | zero => intro st t la sc hp hres; simp [runFrom] at hres
  | succ f ih =>
      intro st t la sc hp hres
      rw [runFrom] at hres ⊢
      cases hc : env.cancelled st.turnCounter with
      | true => simp [hc] at hres
      | false =>
          simp only [hc, Bool.false_eq_true, if_false] at hres ⊢
          cases hS : strategy maxTurns st la sc with
          | terminate sig =>
              cases sig with
              | complete =>
                  have hflag := strategy_terminate_complete hS
                  simp only [hS]
                  exact ⟨hflag, hp hflag⟩
              | budgetExhausted => simp [hS] at hres
              | stalled => simp [hS] at hres
          | selectAgent a =>
              simp only [hS] at hres ⊢
              cases hT : env.agentTurn st.turnCounter a st with
              | raise detail => simp [hT] at hres
              | ok muts =>
                  simp only [hT] at hres ⊢
                  rcases hA : applyMutations st muts with ⟨stOut, err⟩
                  cases err with
                  | some e => simp [hA] at hres
                  | none =>
                      simp only [hA] at hres ⊢
                      have hinv := applyMutations_flagInv muts st hp
                      rw [hA] at hinv
                      exact ih _ _ _ _ hinv hres

theorem runFrom_cancelled_stop (env : Env) (maxTurns fuel : Nat)
    (st : AnalysisState) (t : List TurnRecord) (la : Option Agent) (sc : Nat)
    (hc : env.cancelled st.turnCounter = true) :
    runFrom env maxTurns (fuel + 1) st t la sc = ⟨.error .cancelled, st, t⟩ := by
  rw [runFrom]
  simp [hc]

theorem runFrom_budget_stop (env : Env) (maxTurns fuel : Nat)
    (st : AnalysisState) (t : List TurnRecord) (la : Option Agent) (sc : Nat)
    (hc : env.cancelled st.turnCounter = false)
    (hflag : st.completionFlag = false)
    (hbudget : maxTurns ≤ st.turnCounter) :
    runFrom env maxTurns fuel st t la sc = ⟨.budgetExhausted, st, t⟩ := by
  cases fuel with
  | zero => rfl
  | succ f =>
      have hS : strategy maxTurns st la sc = .terminate .budgetExhausted := by
        unfold strategy
        rw [hflag]
        simp [hbudget]
      rw [runFrom]
      simp [hc, hS]

theorem runFrom_step (env : Env) (maxTurns fuel : Nat) (st : AnalysisState)
    (t : List TurnRecord) (la : Option Agent) (sc : Nat) (muts : List Mutation)
    (hc : env.cancelled st.turnCounter = false)
    (hflag : st.completionFlag = false)
    (hbudget : st.turnCounter < maxTurns)
    (hstall : sc < 2)
    (hturn : env.agentTurn st.turnCounter (nextAgent la) st = .ok muts)
    (hok : (applyMutations st muts).2 = none) :
    runFrom env maxTurns (fuel + 1) st t la sc =
      runFrom env maxTurns fuel
        { (applyMutations st muts).1 with turnCounter := st.turnCounter + 1 }
        (t ++ [⟨st.turnCounter + 1, nextAgent la, muts⟩])
        (some (nextAgent la))
        (if countFindings (applyMutations st muts).1 = countFindings st
          then sc + 1 else 0) := by
  have hS : strategy maxTurns st la sc = .selectAgent (nextAgent la) := by
    unfold strategy
    rw [hflag]
    simp only [Bool.false_eq_true, if_false]
    rw [if_neg (by omega), if_neg (by omega)]
  have hpair : applyMutations st muts = ((applyMutations st muts).1, none) := by
    rw [← hok]
  rw [runFrom]
  simp only [hc, Bool.false_eq_true, if_false, hS, hturn]
  rw [hpair]

/-- The modelled key-derivation function is injective on passphrases. -/
theorem deriveKey_inj {p q : String} (h : deriveKey p = deriveKey q) : p = q := by
  have h2 := congrArg String.data h
  rw [deriveKey, deriveKey, String.data_append, String.data_append] at h2
  exact String.ext (List.append_cancel_left h2)

/-- Claim C1: a run that terminates in Terminated-Complete has the
completion flag set and at least one recorded argument, because the
mark-complete mutation fails with an InvalidStateTransition error whenever
it is attempted before any argument has been recorded. -/
theorem completion_implies_argument :
    (∀ st : AnalysisState, st.arguments = [] →
        applyMutation st .markComplete = .error .invalidStateTransition) ∧
    (∀ (env : Env) (maxTurns : Nat) (text : String),
        (runAnalysis env maxTurns text).result = .complete →
        (runAnalysis env maxTurns text).finalState.completionFlag = true ∧
        (runAnalysis env maxTurns text).finalState.arguments ≠ []) := by
  constructor
  · intro st h
    simp [applyMutation, h]
  · intro env maxTurns text hres
    refine runFrom_complete_inv env maxTurns (maxTurns + 1) (initialState text) [] none 0 ?_ hres
    intro hflag
    simp [initialState] at hflag

/-- Witness for claim C1 at concrete inputs. -/
theorem completion_implies_argument_witness :
    applyMutation (initialState "t") .markComplete = .error .invalidStateTransition ∧
    (runAnalysis envComplete 1 "demo").result = .complete ∧
    (runAnalysis envComplete 1 "demo").finalState.arguments ≠ [] :=
  ⟨completion_implies_argument.1 (initialState "t") rfl,
   by decide,
   (completion_implies_argument.2 envComplete 1 "demo" (by decide)).2⟩

/-- Claim C2: for every run, whatever the agents do and however they
mutate the state, the turn counter at termination is at most the
configured maximum number of turns. -/
theorem turn_counter_at_termination_le_budget (env : Env) (maxTurns : Nat) (text : String) :
    (runAnalysis env maxTurns text).finalState.turnCounter ≤ maxTurns :=
  runFrom_counter_le env maxTurns (maxTurns + 1) (initialState text) [] none 0 (Nat.zero_le _)

/-- Claim C3: encrypting a Source Configuration Store and decrypting with
the correct passphrase reproduces the original mapping exactly, and
decrypting with any wrong passphrase fails with a ConfigurationLoadError
instead of returning a corrupt mapping. -/
theorem config_encrypt_decrypt_roundtrip :
    (∀ (store : SourceStore) (p : String),
        decryptConfig (encryptConfig store p) p = .ok store) ∧
    (∀ (store : SourceStore) (p q : String), q ≠ p →
        decryptConfig (encryptConfig store p) q = .error .configurationLoadError) := by
  constructor
  · intro store p
    simp [decryptConfig, encryptConfig]
  · intro store p q hne
    have hk : ¬ (deriveKey p = deriveKey q) := fun h => hne (deriveKey_inj h).symm
    simp [decryptConfig, encryptConfig, hk]

/-- Witness for claim C3 at concrete inputs. -/
theorem config_encrypt_decrypt_roundtrip_witness :
    decryptConfig (encryptConfig defaultSources "pass") "pass" = .ok defaultSources ∧
    decryptConfig (encryptConfig defaultSources "pass") "wrong" =
      .error .configurationLoadError :=
  ⟨config_encrypt_decrypt_roundtrip.1 defaultSources "pass",
   config_encrypt_decrypt_roundtrip.2 defaultSources "pass" "wrong" (by decide)⟩

/-- Claim C4: with a turn budget of 1 and an agent that never sets the
completion flag, the run terminates in Terminated-BudgetExhausted, not in
an error state, with turn counter equal to 1. -/
theorem budget_one_terminates_budget_exhausted (env : Env) (text : String)
    (hTurn : ∀ (n : Nat) (a : Agent) (st : AnalysisState),
        ∃ muts, env.agentTurn n a st = .ok muts ∧ Mutation.markComplete ∉ muts)
    (hCancel : ∀ n, env.cancelled n = false) :
    (runAnalysis env 1 text).result = .budgetExhausted ∧
    (runAnalysis env 1 text).finalState.turnCounter = 1 := by
  obtain ⟨muts, hturn, hnm⟩ := hTurn 0 .informal (initialState text)
  have hok := applyMutations_no_markComplete muts (initialState text) hnm
  unfold runAnalysis
  rw [runFrom_step env 1 1 (initialState text) [] none 0 muts (hCancel 0) rfl
    (show (0 : Nat) < 1 by decide) (show (0 : Nat) < 2 by decide) hturn hok.1]
  rw [runFrom_budget_stop env 1 1]
  · exact ⟨rfl, rfl⟩
  · exact hCancel _
  · exact hok.2
  · exact Nat.le_refl 1

/-- Witness for claim C4 at concrete inputs. -/
theorem budget_one_terminates_budget_exhausted_witness :
    (runAnalysis envIdle 1 "demo").result = .budgetExhausted ∧
    (runAnalysis envIdle 1 "demo").finalState.turnCounter = 1 :=
  budget_one_terminates_budget_exhausted envIdle "demo"
    (fun _ _ _ => ⟨[], rfl, by simp⟩) (fun _ => rfl)

/-- Claim C5: when the selected agent turn raises an unhandled exception,
the orchestrator terminates the run immediately in Terminated-Error,
logging the turn index, agent identity and exception detail; the state and
transcript are left exactly as they were, so nothing is mutated after the
exception and the turn is never retried. -/
theorem agent_exception_immediate_error (env : Env) (maxTurns fuel : Nat)
    (st : AnalysisState) (t : List TurnRecord) (la : Option Agent) (sc : Nat)
    (detail : String)
    (hc : env.cancelled st.turnCounter = false)
    (hflag : st.completionFlag = false)
    (hbudget : st.turnCounter < maxTurns)
    (hstall : sc < 2)
    (hraise : env.agentTurn st.turnCounter (nextAgent la) st = .raise detail) :
    runFrom env maxTurns (fuel + 1) st t la sc =
      ⟨.error (.agentException (st.turnCounter + 1) (nextAgent la) detail), st, t⟩ := by
  have hS : strategy maxTurns st la sc = .selectAgent (nextAgent la) := by
    unfold strategy
    rw [hflag]
    simp only [Bool.false_eq_true, if_false]
    rw [if_neg (by omega), if_neg (by omega)]
  rw [runFrom]
  simp only [hc, Bool.false_eq_true, if_false, hS, hraise]

/-- Witness for claim C5 at concrete inputs. -/
theorem agent_exception_immediate_error_witness :
    runFrom envRaise 1 1 (initialState "demo") [] none 0 =
      ⟨.error (.agentException 1 .informal "boom"), initialState "demo", []⟩ :=
  agent_exception_immediate_error envRaise 1 0 (initialState "demo") [] none 0 "boom"
    rfl rfl (by decide) (by decide) rfl

/-- Claim C6: when the encrypted Source Configuration File is absent,
startup does not fail: loading falls back to the in-memory default set of
Source Descriptors, which contains 4 sources. -/
theorem missing_config_falls_back_to_defaults (passphrase : String) :
    loadSourceConfig none passphrase = .ok defaultSources ∧
    defaultSources.length = 4 :=
  ⟨rfl, rfl⟩

/-- Claim C7: a cancellation request issued between turn 1 and turn 2 is
observed at the top of the next loop iteration: the run ends in
Terminated-Error with the distinct cancelled sub-reason, the transcript
holds exactly the turn-1 record, and in particular no turn-3 record. -/
theorem cancellation_between_turns_observed (env : Env) (maxTurns : Nat)
    (text : String) (muts : List Mutation)
    (hCancel : ∀ n, env.cancelled n = decide (1 ≤ n))
    (hBudget : 1 ≤ maxTurns)
    (hTurn : env.agentTurn 0 .informal (initialState text) = .ok muts)
    (hOk : (applyMutations (initialState text) muts).2 = none) :
    (runAnalysis env maxTurns text).result = .error .cancelled ∧
    (runAnalysis env maxTurns text).transcript = [⟨1, .informal, muts⟩] ∧
    ∀ r ∈ (runAnalysis env maxTurns text).transcript, r.turnIndex ≠ 3 := by
  obtain ⟨k, rfl⟩ : ∃ k, maxTurns = k + 1 := ⟨maxTurns - 1, by omega⟩
  unfold runAnalysis
  rw [runFrom_step env (k + 1) (k + 1) (initialState text) [] none 0 muts
    (by simpa using hCancel 0) rfl (Nat.succ_pos k) (by decide) hTurn hOk]
  rw [runFrom_cancelled_stop env (k + 1) k]
  · refine ⟨rfl, rfl, ?_⟩
    intro r hr
    simp at hr
    subst hr
    exact (by decide : (1 : Nat) ≠ 3)
  · simpa [initialState] using hCancel 1

/-- Witness for claim C7 at concrete inputs. -/
theorem cancellation_between_turns_observed_witness :
    (runAnalysis envCancelAfter1 1 "demo").result = .error .cancelled ∧
    (runAnalysis envCancelAfter1 1 "demo").transcript = [⟨1, .informal, []⟩] :=
  ⟨(cancellation_between_turns_observed envCancelAfter1 1 "demo" []
      (fun _ => rfl) (Nat.le_refl 1) rfl rfl).1,
   (cancellation_between_turns_observed envCancelAfter1 1 "demo" []
      (fun _ => rfl) (Nat.le_refl 1) rfl rfl).2.1⟩

/-- Claim C8: once no new findings have been added for two consecutive
turns, the Turn-Selection Strategy terminates the conversation rather than
selecting another agent, and the loop stops without a further turn. -/
theorem stall_two_turns_terminates (maxTurns : Nat) (st : AnalysisState)
    (la : Option Agent) (sc : Nat) (hstall : 2 ≤ sc) :
    (∃ sig, strategy maxTurns st la sc = .terminate sig) ∧
    ∀ (env : Env) (t : List TurnRecord) (fuel : Nat),
      env.cancelled st.turnCounter = false →
      (runFrom env maxTurns (fuel + 1) st t la sc).transcript = t ∧
      (runFrom env maxTurns (fuel + 1) st t la sc).finalState = st := by
  have hterm : ∃ sig, strategy maxTurns st la sc = .terminate sig := by
    unfold strategy
    split_ifs with h1 h2
    · exact ⟨.complete, rfl⟩
    · exact ⟨.budgetExhausted, rfl⟩
    · exact ⟨.stalled, rfl⟩
  refine ⟨hterm, ?_⟩
  intro env t fuel hc
  obtain ⟨sig, hS⟩ := hterm
  rw [runFrom]
  cases sig <;> simp [hc, hS]

/-- Witness for claim C8 at concrete inputs. -/
theorem stall_two_turns_terminates_witness :
    (∃ sig, strategy 3 (initialState "demo") none 2 = .terminate sig) ∧
    (runFrom envIdle 3 1 (initialState "demo") [] none 2).transcript = [] :=
  ⟨(stall_two_turns_terminates 3 (initialState "demo") none 2 (Nat.le_refl 2)).1,
   ((stall_two_turns_terminates 3 (initialState "demo") none 2 (Nat.le_refl 2)).2
      envIdle [] 0 rfl).1⟩

/-- Claim C9: no registered mutation changes the raw text of the Shared
Analysis State, and over any complete run the final raw text equals the
text the state was initialised with. -/
theorem raw_text_immutable :
    (∀ (st : AnalysisState) (m : Mutation) (st2 : AnalysisState),
        applyMutation st m = .ok st2 → st2.rawText = st.rawText) ∧
    (∀ (env : Env) (maxTurns : Nat) (text : String),
        (runAnalysis env maxTurns text).finalState.rawText = text) := by
  constructor
  · intro st m st2 h
    exact (applyMutation_ok_fields h).1
  · intro env maxTurns text
    exact runFrom_rawText env maxTurns (maxTurns + 1) (initialState text) [] none 0

/-- Witness for claim C9 at concrete inputs. -/
theorem raw_text_immutable_witness :
    (⟨"demo", ["a1"], [], [], false, 0⟩ : AnalysisState).rawText =
      (initialState "demo").rawText ∧
    (runAnalysis envIdle 1 "demo").finalState.rawText = "demo" :=
  ⟨raw_text_immutable.1 (initialState "demo") (.addArgument "a1") _ rfl,
   raw_text_immutable.2 envIdle 1 "demo"⟩

/-- Claim C10: the executor launches run_analysis_conversation only when
the prepared text is non-empty and the agent and orchestration definitions
loaded successfully; when the text is None or empty, or loading raised an
exception, the analysis is never launched. -/
theorem executor_guards_analysis_launch :
    (∀ env : ExecutorEnv, analysisLaunched env = true →
        (∃ s, texteApresChargement env = some s ∧ s ≠ "") ∧
        env.agentLoadOk = true ∧ env.definesRun = true) ∧
    (∀ env : ExecutorEnv,
        truthy (textePourAnalyse env) = false ∨ env.agentLoadOk = false →
        analysisLaunched env = false) := by
  constructor
  · intro env h
    simp only [analysisLaunched, runConversationDefined, Bool.and_eq_true] at h
    obtain ⟨h1, ⟨h2, h3⟩, h4⟩ := h
    refine ⟨?_, h3, h4⟩
    cases ht : texteApresChargement env with
    | none => rw [ht] at h1; simp [truthy] at h1
    | some s =>
        rw [ht] at h1
        simp only [truthy, Bool.not_eq_eq_eq_not, Bool.not_true, decide_eq_false_iff_not] at h1
        exact ⟨s, rfl, h1⟩
  · intro env h
    cases h with
    | inl h => simp [analysisLaunched, runConversationDefined, texteApresChargement, h]
    | inr h => simp [analysisLaunched, runConversationDefined, h]

/-- Witness for claim C10 at concrete inputs. -/
theorem executor_guards_analysis_launch_witness :
    ((∃ s, texteApresChargement execEnvOk = some s ∧ s ≠ "") ∧
      execEnvOk.agentLoadOk = true ∧ execEnvOk.definesRun = true) ∧
    analysisLaunched execEnvFail = false :=
  ⟨executor_guards_analysis_launch.1 execEnvOk (by decide),
   executor_guards_analysis_launch.2 execEnvFail (Or.inl (by decide))⟩

end ArgAnalysis
